import Mathlib

/-!
Shallow embedding of the caption transformation engine of the
caption-dropout-visualizer repository (src/utils/captionDropout.ts and
src/utils/wolfCaptions.ts), together with theorems settling the frozen
claims about it.

Modelling conventions:
* a JavaScript string is a `List Char` (`Str`);
* `Math.random` is an ambient stream `g : Nat → ℚ` read at a cursor `m`
  that is threaded through every call (`...Run` functions return the new
  cursor), since successive unseeded calls consume successive draws;
* `seedrandom(seed.toString())` is an abstract family `F : Nat → Nat → ℚ`
  (seed → draw index → value): a fresh seeded generator reads `F seed` from
  index 0 and leaves the ambient cursor untouched;
* the keep-tokens regex `esc(sep)([^esc(sep)]+)esc(sep)` built by the code is
  modelled as a literal scanner: the escaped separator matches literally and
  the character class is the set of the separator's characters (the model
  assumes the separator does not produce a `-` range inside the class);
* the random placeholder suffixes `Math.random().toString(36).substring(2,10)`
  of the Wolf rewriter are modelled as an abstract stream `rs : Nat → Str`
  of suffix strings, drawn in match order.
Scanning loops that JavaScript expresses with regex `lastIndex` state are
written with an explicit fuel argument; callers pass `length + 1`, which is
always sufficient because every iteration consumes at least one character.
-/

namespace CaptionViz

abbrev Str := List Char

/-- The whitespace characters removed by JavaScript's `String.trim`
(ASCII fragment; the captions in play contain only plain spaces). -/
def jsWhitespace (c : Char) : Bool :=
  c == ' ' || c == '\t' || c == '\n' || c == '\r' || c == '\x0b' || c == '\x0c'

/-- JavaScript `s.trim()`. -/
def jsTrim (s : Str) : Str :=
  ((s.dropWhile jsWhitespace).reverse.dropWhile jsWhitespace).reverse

/-- `Math.floor(q * n)` computed on the numerator and denominator, so that it
evaluates inside the kernel; `floorTimesNat_eq` below proves it equal to
`⌊q * n⌋`. -/
def floorTimesNat (q : ℚ) (n : Nat) : Int := (q.num * n) / q.den

/-- First occurrence of the literal `sep` in `s`: returns the part before the
occurrence and the part after it, or `none` when `sep` does not occur. -/
def breakOn (sep : Str) : Str → Option (Str × Str)
  | [] => none
  | c :: cs =>
    if sep.isPrefixOf (c :: cs) then some ([], (c :: cs).drop sep.length)
    else
      match breakOn sep cs with
      | some (pre, post) => some (c :: pre, post)
      | none => none

/-- Fueled worker for JavaScript `s.split(sep)` with a non-empty separator. -/
def splitFuel (sep : Str) : Nat → Str → List Str
  | 0, s => [s]
  | fuel + 1, s =>
    match breakOn sep s with
    | none => [s]
    | some (pre, post) => pre :: splitFuel sep fuel post

/-- JavaScript `s.split(sep)`: splitting on the empty separator yields the
individual characters, otherwise leftmost non-overlapping occurrences. -/
def jsSplit (s sep : Str) : List Str :=
  if sep = [] then s.map (fun c => [c]) else splitFuel sep s.length s

/-- JavaScript `s.includes(p)`. -/
def hasSub : Str → Str → Bool
  | [], p => p.isEmpty
  | c :: cs, p => p.isPrefixOf (c :: cs) || hasSub cs p

/-- `splitByMultipleSeparators` from captionDropout.ts: apply each separator
sequentially to every current token, then trim and drop empties. -/
def splitByMultipleSeparators (text : Str) (separators : List Str) : List Str :=
  if separators = [] then
    (((jsSplit text [',']).map jsTrim).filter (fun t => !t.isEmpty))
  else
    let tokens := separators.foldl
      (fun toks sep => (((toks.map (fun t => jsSplit t sep)).flatten))) [text]
    ((tokens.map jsTrim).filter (fun t => !t.isEmpty))

/-- The `captionSeparator` parameter: a single string or an array of strings. -/
inductive SepArg where
  | single (sep : Str)
  | multi (seps : List Str)

/-- The primary separator the code joins with. -/
def primarySeparator : SepArg → Str
  | .single sep => sep
  | .multi seps => seps.headD [',']

/-- Tokenization as performed at the top of `applyCaptionDropout` and
`shuffleCaption`: split, trim, drop empties. -/
def tokenizeArg (caption : Str) : SepArg → List Str
  | .single sep => ((jsSplit caption sep).map jsTrim).filter (fun t => !t.isEmpty)
  | .multi seps => splitByMultipleSeparators caption seps

/-- The keep-tokens regex scan `esc(ks)([^chars(ks)]+)esc(ks)` with the `g`
flag: at each occurrence of `ks` take the maximal run of characters outside
`ks`'s character set; the match succeeds when the run is non-empty and is
followed by `ks` again, and scanning resumes after the match (on failure, one
character past the occurrence's start).  Each captured run is trimmed. -/
def keepTokensMatches (ks : Str) : Nat → Str → List Str
  | 0, _ => []
  | fuel + 1, s =>
    match breakOn ks s with
    | none => []
    | some (_, post) =>
      let run := post.takeWhile (fun c => !ks.contains c)
      let rest := post.drop run.length
      if !run.isEmpty && ks.isPrefixOf rest then
        jsTrim run :: keepTokensMatches ks fuel (rest.drop ks.length)
      else
        keepTokensMatches ks fuel (ks.drop 1 ++ post)

/-- The dropout filter: protected tokens are kept without drawing; every
other token draws one value and survives iff `rate < draw`.  Returns the
surviving tokens and the next draw index. -/
def dropoutFilter (r : Nat → ℚ) (rate : ℚ) (keep : Str → Bool) :
    List Str → Nat → List Str × Nat
  | [], n => ([], n)
  | t :: ts, n =>
    if keep t then
      let p := dropoutFilter r rate keep ts n
      (t :: p.1, p.2)
    else if rate < r n then
      let p := dropoutFilter r rate keep ts (n + 1)
      (t :: p.1, p.2)
    else
      dropoutFilter r rate keep ts (n + 1)

/-- `applyCaptionDropout` running against one draw stream `r` (read from
index 0); returns the output string and the number of draws consumed. -/
def applyCaptionDropoutCore (r : Nat → ℚ) (originalCaption : Str)
    (dropoutRate : ℚ) (keepTokens : Nat) (keepTokensSeparator : Str)
    (captionSeparator : SepArg) : Str × Nat :=
  if (jsTrim originalCaption).isEmpty then ([], 0)
  else
    let tokens := tokenizeArg originalCaption captionSeparator
    if tokens.isEmpty then ([], 0)
    else
      let tokensToKeep :=
        if 0 < keepTokens ∧ keepTokensSeparator ≠ [] then
          keepTokensMatches keepTokensSeparator
            (originalCaption.length + 1) originalCaption
        else []
      let keep := fun t => tokensToKeep.any (fun kt => hasSub t kt)
      let p := dropoutFilter r dropoutRate keep tokens 0
      (List.intercalate (primarySeparator captionSeparator) p.1, p.2)

/-- The stream `g` advanced to cursor `m`. -/
def shiftStream (g : Nat → ℚ) (m : Nat) : Nat → ℚ := fun k => g (m + k)

/-- `applyCaptionDropout` with the RNG plumbing of the source: a provided
seed builds a fresh `seedrandom` generator `F seed`, otherwise draws come
from the ambient `Math.random` stream at cursor `m`.  Returns the output and
the new ambient cursor. -/
def applyCaptionDropoutRun (F : Nat → Nat → ℚ) (g : Nat → ℚ) (m : Nat)
    (caption : Str) (rate : ℚ) (keepTokens : Nat) (ks : Str) (sep : SepArg)
    (seed : Option Nat) : Str × Nat :=
  match seed with
  | some s => ((applyCaptionDropoutCore (F s) caption rate keepTokens ks sep).1, m)
  | none =>
    let p := applyCaptionDropoutCore (shiftStream g m) caption rate keepTokens ks sep
    (p.1, m + p.2)

/-- The destructuring swap `[a[i], a[j]] = [a[j], a[i]]`. -/
def listSwap (a : List Str) (i j : Nat) : List Str :=
  let vi := a.getD i []
  let vj := a.getD j []
  (a.set i vj).set j vi

/-- The Fisher–Yates loop of `shuffleCaption`: for the current index `k`
(running from `len - 1` down to `1`) draw `j = ⌊rng() * (k + 1)⌋` and swap.
The first argument of the recursion is the current index. -/
def fisherYates (r : Nat → ℚ) : List Str → Nat → Nat → List Str × Nat
  | a, 0, n => (a, n)
  | a, i + 1, n =>
    let j := (floorTimesNat (r n) (i + 2)).toNat
    fisherYates r (listSwap a (i + 1) j) i (n + 1)

/-- Positions pinned by `shuffleCaption`: for each keep-tokens match, the
index of the first token containing it (if any), in match order. -/
def keepPositionsOf (tokens : List Str) (kmatches : List Str) : List Nat :=
  kmatches.foldl
    (fun acc kt =>
      match tokens.findIdx? (fun t => hasSub t kt) with
      | some i => acc ++ [i]
      | none => acc) []

/-- `tokens.filter((_, index) => !keepPositions.includes(index))`. -/
def filterNotIdx (keep : List Nat) : List Str → Nat → List Str
  | [], _ => []
  | t :: ts, i =>
    if keep.contains i then filterNotIdx keep ts (i + 1)
    else t :: filterNotIdx keep ts (i + 1)

/-- The reconstruction loop of `shuffleCaption`: pinned positions keep their
original token, the other positions take the shuffled tokens in order. -/
def reconstructTokens (keep : List Nat) : List Str → Nat → List Str → List Str
  | [], _, _ => []
  | t :: ts, i, sh =>
    if keep.contains i then t :: reconstructTokens keep ts (i + 1) sh
    else sh.headD [] :: reconstructTokens keep ts (i + 1) sh.tail

/-- The token-level body of `shuffleCaption`: the list of tokens the output
string is joined from, together with the number of draws consumed. -/
def shuffleTokens (r : Nat → ℚ) (caption : Str) (keepTokens : Nat) (ks : Str)
    (sep : SepArg) : List Str × Nat :=
  let tokens := tokenizeArg caption sep
  let kmatches :=
    if 0 < keepTokens ∧ ks ≠ [] then
      keepTokensMatches ks (caption.length + 1) caption
    else []
  let keepPositions := keepPositionsOf tokens kmatches
  let toShuffle := filterNotIdx keepPositions tokens 0
  let p := fisherYates r toShuffle (toShuffle.length - 1) 0
  (reconstructTokens keepPositions tokens 0 p.1, p.2)

/-- `shuffleCaption` against one draw stream (read from index 0). -/
def shuffleCaptionCore (r : Nat → ℚ) (caption : Str) (keepTokens : Nat)
    (ks : Str) (sep : SepArg) : Str × Nat :=
  if (jsTrim caption).isEmpty then ([], 0)
  else
    let tokens := tokenizeArg caption sep
    if tokens.isEmpty then ([], 0)
    else
      let p := shuffleTokens r caption keepTokens ks sep
      (List.intercalate (primarySeparator sep) p.1, p.2)

/-- `shuffleCaption` with the RNG plumbing of the source. -/
def shuffleCaptionRun (F : Nat → Nat → ℚ) (g : Nat → ℚ) (m : Nat)
    (caption : Str) (keepTokens : Nat) (ks : Str) (sep : SepArg)
    (seed : Option Nat) : Str × Nat :=
  match seed with
  | some s => ((shuffleCaptionCore (F s) caption keepTokens ks sep).1, m)
  | none =>
    let p := shuffleCaptionCore (shiftStream g m) caption keepTokens ks sep
    (p.1, m + p.2)

/-- `applyBothDropoutAndShuffle`: dropout, then shuffle of the dropout
result, the same `seed` argument handed to both stages. -/
def applyBothDropoutAndShuffleRun (F : Nat → Nat → ℚ) (g : Nat → ℚ) (m : Nat)
    (caption : Str) (rate : ℚ) (keepTokens : Nat) (ks : Str) (sep : SepArg)
    (seed : Option Nat) : Str × Nat :=
  let d := applyCaptionDropoutRun F g m caption rate keepTokens ks sep seed
  shuffleCaptionRun F g d.2 d.1 keepTokens ks sep seed

/-- The step loop of `simulateDropoutSteps`: when a seed was given, step `i`
runs dropout with seed `baseSeed + i`, otherwise unseeded. -/
def simulateDropoutGo (F : Nat → Nat → ℚ) (g : Nat → ℚ) (caption : Str)
    (rate : ℚ) (keepTokens : Nat) (ks : Str) (sep : SepArg) (seeded : Bool)
    (baseSeed : Nat) : Nat → Nat → Nat → List Str × Nat
  | 0, _, m => ([], m)
  | count + 1, i, m =>
    let stepSeed := if seeded then some (baseSeed + i) else none
    let p := applyCaptionDropoutRun F g m caption rate keepTokens ks sep stepSeed
    let q := simulateDropoutGo F g caption rate keepTokens ks sep seeded
      baseSeed count (i + 1) p.2
    (p.1 :: q.1, q.2)

/-- `simulateDropoutSteps`: without a seed one ambient draw computes the
(unused) `baseSeed`; the loop runs `min steps 1000` times. -/
def simulateDropoutStepsRun (F : Nat → Nat → ℚ) (g : Nat → ℚ) (m : Nat)
    (caption : Str) (rate : ℚ) (steps : Nat) (keepTokens : Nat) (ks : Str)
    (sep : SepArg) (seed : Option Nat) : List Str × Nat :=
  match seed with
  | some s =>
    simulateDropoutGo F g caption rate keepTokens ks sep true s
      (min steps 1000) 0 m
  | none =>
    simulateDropoutGo F g caption rate keepTokens ks sep false
      ((floorTimesNat (g m) 1000000).toNat) (min steps 1000) 0 (m + 1)

/-- The step loop of `simulateShuffleSteps`. -/
def simulateShuffleGo (F : Nat → Nat → ℚ) (g : Nat → ℚ) (caption : Str)
    (keepTokens : Nat) (ks : Str) (sep : SepArg) (seeded : Bool)
    (baseSeed : Nat) : Nat → Nat → Nat → List Str × Nat
  | 0, _, m => ([], m)
  | count + 1, i, m =>
    let stepSeed := if seeded then some (baseSeed + i) else none
    let p := shuffleCaptionRun F g m caption keepTokens ks sep stepSeed
    let q := simulateShuffleGo F g caption keepTokens ks sep seeded
      baseSeed count (i + 1) p.2
    (p.1 :: q.1, q.2)

/-- `simulateShuffleSteps`. -/
def simulateShuffleStepsRun (F : Nat → Nat → ℚ) (g : Nat → ℚ) (m : Nat)
    (caption : Str) (steps : Nat) (keepTokens : Nat) (ks : Str)
    (sep : SepArg) (seed : Option Nat) : List Str × Nat :=
  match seed with
  | some s =>
    simulateShuffleGo F g caption keepTokens ks sep true s (min steps 1000) 0 m
  | none =>
    simulateShuffleGo F g caption keepTokens ks sep false
      ((floorTimesNat (g m) 1000000).toNat) (min steps 1000) 0 (m + 1)

/-- The step loop of `simulateBothOperationsSteps`. -/
def simulateBothGo (F : Nat → Nat → ℚ) (g : Nat → ℚ) (caption : Str)
    (rate : ℚ) (keepTokens : Nat) (ks : Str) (sep : SepArg) (seeded : Bool)
    (baseSeed : Nat) : Nat → Nat → Nat → List Str × Nat
  | 0, _, m => ([], m)
  | count + 1, i, m =>
    let stepSeed := if seeded then some (baseSeed + i) else none
    let p := applyBothDropoutAndShuffleRun F g m caption rate keepTokens ks
      sep stepSeed
    let q := simulateBothGo F g caption rate keepTokens ks sep seeded
      baseSeed count (i + 1) p.2
    (p.1 :: q.1, q.2)

/-- `simulateBothOperationsSteps`. -/
def simulateBothOperationsStepsRun (F : Nat → Nat → ℚ) (g : Nat → ℚ) (m : Nat)
    (caption : Str) (rate : ℚ) (steps : Nat) (keepTokens : Nat) (ks : Str)
    (sep : SepArg) (seed : Option Nat) : List Str × Nat :=
  match seed with
  | some s =>
    simulateBothGo F g caption rate keepTokens ks sep true s
      (min steps 1000) 0 m
  | none =>
    simulateBothGo F g caption rate keepTokens ks sep false
      ((floorTimesNat (g m) 1000000).toNat) (min steps 1000) 0 (m + 1)

/-! ### wolfCaptions.ts -/

/-- Fueled decimal rendering worker. -/
def natCharsGo : Nat → Nat → Str
  | 0, _ => []
  | fuel + 1, n =>
    if n < 10 then [Nat.digitChar n]
    else natCharsGo fuel (n / 10) ++ [Nat.digitChar (n % 10)]

/-- Decimal rendering of a number, used in the `__ABBR${index}__` template. -/
def natChars (n : Nat) : Str := natCharsGo (n + 1) n

/-- The abbreviation patterns of `processWolfCaption`, in source order (each
regex in the source is a literal string with escaped dots). -/
def abbreviationPatterns : List Str :=
  ["Mr.", "Mrs.", "Ms.", "Dr.", "Prof.", "Rev.", "Hon.",
   "etc.", "vs.", "e.g.", "i.e.", "et al.",
   "a.m.", "p.m.",
   "U.S.", "U.K.", "U.S.A.", "N.Y.",
   "Ph.D.", "B.A.", "M.A.", "M.S.", "B.S.",
   "k.k.", "Inc.", "Ltd.", "Jr.", "Sr.", "St."].map String.toList

/-- One global-replace pass for a literal pattern: each match becomes
`base ++ rs n` (a fresh random suffix per match) and is recorded together
with the matched text for later restoration. -/
def maskMatchesGo (pat base : Str) (rs : Nat → Str) :
    Nat → Str → Nat → Str × Nat × List (Str × Str)
  | 0, s, n => (s, n, [])
  | fuel + 1, s, n =>
    match breakOn pat s with
    | none => (s, n, [])
    | some (pre, post) =>
      let uid := base ++ rs n
      let rest := maskMatchesGo pat base rs fuel post (n + 1)
      (pre ++ uid ++ rest.1, rest.2.1, (uid, pat) :: rest.2.2)

/-- The `commonAbbreviations.forEach` loop: pattern number `idx` uses the
placeholder base `__ABBR${idx}__`; the random-draw counter and the
placeholder record thread through in insertion order. -/
def maskAbbreviations (rs : Nat → Str) :
    List Str → Nat → Str → Nat → Str × Nat × List (Str × Str)
  | [], _, s, n => (s, n, [])
  | pat :: ps, idx, s, n =>
    let base := "__ABBR".toList ++ natChars idx ++ "__".toList
    let step := maskMatchesGo pat base rs (s.length + 1) s n
    let rest := maskAbbreviations rs ps (idx + 1) step.1 step.2.1
    (rest.1, rest.2.1, step.2.2 ++ rest.2.2)

/-- Attempt of the decimal regex `\d+\.\d+` at the current position:
greedy digit run, a dot, greedy digit run. -/
def decMatchAt (s : Str) : Option (Str × Str) :=
  let d1 := s.takeWhile Char.isDigit
  if d1.isEmpty then none
  else
    match s.drop d1.length with
    | '.' :: rest2 =>
      let d2 := rest2.takeWhile Char.isDigit
      if d2.isEmpty then none
      else some (d1 ++ '.' :: d2, rest2.drop d2.length)
    | _ => none

/-- Global replace of the decimal pattern with `__NUM${suffix}__`
placeholders. -/
def maskDecimalsGo (rs : Nat → Str) :
    Nat → Str → Nat → Str × Nat × List (Str × Str)
  | 0, s, n => (s, n, [])
  | _ + 1, [], n => ([], n, [])
  | fuel + 1, c :: cs, n =>
    match decMatchAt (c :: cs) with
    | some (mt, rest) =>
      let uid := "__NUM".toList ++ rs n ++ "__".toList
      let q := maskDecimalsGo rs fuel rest (n + 1)
      (uid ++ q.1, q.2.1, (uid, mt) :: q.2.2)
    | none =>
      let q := maskDecimalsGo rs fuel cs n
      (c :: q.1, q.2.1, q.2.2)

/-- Literal global replace (used to restore placeholders). -/
def replaceLitGo (pat rep : Str) : Nat → Str → Str
  | 0, s => s
  | fuel + 1, s =>
    match breakOn pat s with
    | none => s
    | some (pre, post) => pre ++ rep ++ replaceLitGo pat rep fuel post

/-- JavaScript `s.endsWith(p)`. -/
def endsWithB (s p : Str) : Bool := p.reverse.isPrefixOf s.reverse

/-- The sentence reconstruction loop of `processWolfCaption`: intermediate
sentences get `"., "`, the last sentence keeps or gains the `".,"` marker;
whitespace-only sentences are skipped. -/
def rebuildSentences (descEndsDot : Bool) : List Str → Str
  | [] => []
  | [lastS] =>
    if (jsTrim lastS).isEmpty then []
    else if endsWithB lastS ['.'] then lastS.dropLast ++ ".,".toList
    else lastS ++ (if descEndsDot then ".,".toList else [])
  | sHd :: rest =>
    (if (jsTrim sHd).isEmpty then [] else sHd ++ "., ".toList) ++
      rebuildSentences descEndsDot rest

/-- `processWolfCaption`: split off a `|||` tag part, mask abbreviations and
decimals with random placeholders, split on `". "`, insert the `".,"`
sentence markers, restore the placeholders, and re-prepend the tag part. -/
def processWolfCaption (rs : Nat → Str) (caption : Str) : Str :=
  if (jsTrim caption).isEmpty then []
  else
    let marker := "|||".toList
    let hasMarker := hasSub caption marker
    let parts := (jsSplit caption marker).take 2
    let tagPart := if hasMarker then parts.headD [] ++ "||| ".toList else []
    let descPart := if hasMarker then parts.getD 1 [] else caption
    let m1 := maskAbbreviations rs abbreviationPatterns 0 descPart 0
    let m2 := maskDecimalsGo rs (m1.1.length + 1) m1.1 m1.2.1
    let entries := m1.2.2 ++ m2.2.2
    let sentences := jsSplit m2.1 ". ".toList
    let result := rebuildSentences (endsWithB (jsTrim descPart) ['.']) sentences
    let restored := entries.foldl
      (fun acc e => replaceLitGo e.1 e.2 (acc.length + 1) acc) result
    tagPart ++ restored

/-! ### Claim-worded seed derivation (used to settle C3) -/

/-- The sub-seed derivation exactly as the claim words it — drawn from the
parent seeded stream and scaled into a large integer range
(`floor(parentRng() * 1e9)`). This is the claim side of C3, not the code. -/
def derivedSeed (F : Nat → Nat → ℚ) (seed : Nat) (i : Nat) : Nat :=
  (floorTimesNat (F seed i) 1000000000).toNat

/-- `simulateDropoutSteps` with the seed plumbing the claim describes: step
`i` uses the scaled `i`-th draw of the parent stream as its sub-seed. -/
def simulateDropoutStepsClaimed (F : Nat → Nat → ℚ) (caption : Str) (rate : ℚ)
    (steps : Nat) (keepTokens : Nat) (ks : Str) (sep : SepArg) (seed : Nat) :
    List Str :=
  (List.range (min steps 1000)).map fun i =>
    (applyCaptionDropoutCore (F (derivedSeed F seed i)) caption rate keepTokens
      ks sep).1

/-- `applyBothDropoutAndShuffle` with the seed plumbing the claim describes:
two sub-seeds drawn from the parent stream. -/
def applyBothClaimed (F : Nat → Nat → ℚ) (caption : Str) (rate : ℚ)
    (keepTokens : Nat) (ks : Str) (sep : SepArg) (seed : Nat) : Str :=
  let dropoutSeed := derivedSeed F seed 0
  let shuffleSeed := derivedSeed F seed 1
  let dropped :=
    (applyCaptionDropoutCore (F dropoutSeed) caption rate keepTokens ks sep).1
  (shuffleCaptionCore (F shuffleSeed) dropped keepTokens ks sep).1

/-! ### Concrete streams for witnesses and counterexamples -/

/-- Constant-zero draw stream. -/
def zeroStream : Nat → ℚ := fun _ => 0

/-- Constant-one draw stream (a strictly positive draw at every index). -/
def oneStream : Nat → ℚ := fun _ => 1

/-- A seed family whose stream is constant 1 at seed 1 and constant 0 at any
other seed: it reveals which seed a stage actually received. -/
def seedProbeFamily : Nat → Nat → ℚ := fun s _ => if s = 1 then 1 else 0

/-- A seed family with a constant-zero stream at every seed. -/
def zeroFamily : Nat → Nat → ℚ := fun _ _ => 0

/-- A seed family with a constant-one stream at every seed. -/
def oneFamily : Nat → Nat → ℚ := fun _ _ => 1

/-- A concrete base-36 placeholder-suffix stream for the Wolf rewriter. -/
def sampleSuffixes : Nat → Str := fun _ => "x7k2q0ab".toList

/-- The tokens at pinned positions (complement of `filterNotIdx`), used to
state the partition of the token list in the shuffle permutation proof. -/
def filterIdxKeep (keep : List Nat) : List Str → Nat → List Str
  | [], _ => []
  | t :: ts, i =>
    if keep.contains i then t :: filterIdxKeep keep ts (i + 1)
    else filterIdxKeep keep ts (i + 1)

/-- Whether some adjacent character pair of the string satisfies `P` then
`Q`; the proof-side tool for locating `". "` and `"\\d+\\.\\d+"` patterns. -/
def hasPairPred (P Q : Char → Bool) : Str → Bool
  | a :: b :: rest => (P a && Q b) || hasPairPred P Q (b :: rest)
  | _ => false

/-- The characters `Math.random().toString(36).substring(2, 10)` can produce:
decimal digits and lowercase letters. -/
def base36Char (c : Char) : Bool := c.isDigit || ('a' ≤ c && c ≤ 'z')

/-! ### Helper lemmas -/

theorem floorTimesNat_eq (q : ℚ) (n : Nat) : floorTimesNat q n = ⌊q * (n : ℚ)⌋ := by
  rw [floorTimesNat, show q * (n : ℚ) = ((q.num * n : ℤ) : ℚ) / ((q.den : ℕ) : ℚ) by
    push_cast
    conv_lhs => rw [← Rat.num_div_den q]
    ring]
  exact (Rat.floor_intCast_div_natCast _ _).symm

theorem simulateDropoutGo_seeded (F : Nat → Nat → ℚ) (g₁ g₂ : Nat → ℚ)
    (c : Str) (rate : ℚ) (kt : Nat) (ks : Str) (sep : SepArg) (b : Nat) :
    ∀ count i m₁ m₂,
      (simulateDropoutGo F g₁ c rate kt ks sep true b count i m₁).1 =
      (simulateDropoutGo F g₂ c rate kt ks sep true b count i m₂).1 := by
  intro count
  induction count with
  | zero => intro i m₁ m₂; rfl
  | succ n ih =>
    intro i m₁ m₂
    simp only [simulateDropoutGo, applyCaptionDropoutRun, if_true]
    exact congrArg _ (ih (i + 1) m₁ m₂)

theorem simulateShuffleGo_seeded (F : Nat → Nat → ℚ) (g₁ g₂ : Nat → ℚ)
    (c : Str) (kt : Nat) (ks : Str) (sep : SepArg) (b : Nat) :
    ∀ count i m₁ m₂,
      (simulateShuffleGo F g₁ c kt ks sep true b count i m₁).1 =
      (simulateShuffleGo F g₂ c kt ks sep true b count i m₂).1 := by
  intro count
  induction count with
  | zero => intro i m₁ m₂; rfl
  | succ n ih =>
    intro i m₁ m₂
    simp only [simulateShuffleGo, shuffleCaptionRun, if_true]
    exact congrArg _ (ih (i + 1) m₁ m₂)

theorem simulateBothGo_seeded (F : Nat → Nat → ℚ) (g₁ g₂ : Nat → ℚ)
    (c : Str) (rate : ℚ) (kt : Nat) (ks : Str) (sep : SepArg) (b : Nat) :
    ∀ count i m₁ m₂,
      (simulateBothGo F g₁ c rate kt ks sep true b count i m₁).1 =
      (simulateBothGo F g₂ c rate kt ks sep true b count i m₂).1 := by
  intro count
  induction count with
  | zero => intro i m₁ m₂; rfl
  | succ n ih =>
    intro i m₁ m₂
    simp only [simulateBothGo, applyBothDropoutAndShuffleRun,
      applyCaptionDropoutRun, shuffleCaptionRun, if_true]
    exact congrArg _ (ih (i + 1) m₁ m₂)

theorem simulateDropoutGo_length (F : Nat → Nat → ℚ) (g : Nat → ℚ) (c : Str)
    (rate : ℚ) (kt : Nat) (ks : Str) (sep : SepArg) (sd : Bool) (b : Nat) :
    ∀ count i m,
      (simulateDropoutGo F g c rate kt ks sep sd b count i m).1.length = count := by
  intro count
  induction count with
  | zero => intro i m; rfl
  | succ n ih =>
    intro i m
    simp only [simulateDropoutGo, List.length_cons]
    rw [ih]

theorem simulateShuffleGo_length (F : Nat → Nat → ℚ) (g : Nat → ℚ) (c : Str)
    (kt : Nat) (ks : Str) (sep : SepArg) (sd : Bool) (b : Nat) :
    ∀ count i m,
      (simulateShuffleGo F g c kt ks sep sd b count i m).1.length = count := by
  intro count
  induction count with
  | zero => intro i m; rfl
  | succ n ih =>
    intro i m
    simp only [simulateShuffleGo, List.length_cons]
    rw [ih]

theorem simulateBothGo_length (F : Nat → Nat → ℚ) (g : Nat → ℚ) (c : Str)
    (rate : ℚ) (kt : Nat) (ks : Str) (sep : SepArg) (sd : Bool) (b : Nat) :
    ∀ count i m,
      (simulateBothGo F g c rate kt ks sep sd b count i m).1.length = count := by
  intro count
  induction count with
  | zero => intro i m; rfl
  | succ n ih =>
    intro i m
    simp only [simulateBothGo, List.length_cons]
    rw [ih]

/-! ### Claim theorems: determinism, step cap, composition -/

/-- C4: seeded determinism. With a fixed integer seed the outputs of
`applyCaptionDropout`, `shuffleCaption` and the three step simulators are
functions of the caption, the configuration and the seed alone: they do not
depend on the ambient `Math.random` state (stream `g`, cursor `m`), which is
the only thing that differs between two calls with identical arguments, so
two such calls yield identical strings / element-wise identical sequences. -/
theorem c4_seeded_determinism (F : Nat → Nat → ℚ) (g₁ g₂ : Nat → ℚ)
    (m₁ m₂ : Nat) (caption : Str) (rate : ℚ) (steps : Nat) (kt : Nat)
    (ks : Str) (sep : SepArg) (s : Nat) :
    (applyCaptionDropoutRun F g₁ m₁ caption rate kt ks sep (some s)).1 =
      (applyCaptionDropoutRun F g₂ m₂ caption rate kt ks sep (some s)).1 ∧
    (shuffleCaptionRun F g₁ m₁ caption kt ks sep (some s)).1 =
      (shuffleCaptionRun F g₂ m₂ caption kt ks sep (some s)).1 ∧
    (simulateDropoutStepsRun F g₁ m₁ caption rate steps kt ks sep (some s)).1 =
      (simulateDropoutStepsRun F g₂ m₂ caption rate steps kt ks sep (some s)).1 ∧
    (simulateShuffleStepsRun F g₁ m₁ caption steps kt ks sep (some s)).1 =
      (simulateShuffleStepsRun F g₂ m₂ caption steps kt ks sep (some s)).1 ∧
    (simulateBothOperationsStepsRun F g₁ m₁ caption rate steps kt ks sep (some s)).1 =
      (simulateBothOperationsStepsRun F g₂ m₂ caption rate steps kt ks sep (some s)).1 := by
  refine ⟨rfl, rfl, ?_, ?_, ?_⟩
  · exact simulateDropoutGo_seeded F g₁ g₂ caption rate kt ks sep s _ 0 m₁ m₂
  · exact simulateShuffleGo_seeded F g₁ g₂ caption kt ks sep s _ 0 m₁ m₂
  · exact simulateBothGo_seeded F g₁ g₂ caption rate kt ks sep s _ 0 m₁ m₂

/-- C5: step cap. Each simulator returns exactly `min steps 1000` results,
for every requested `steps` (so a request of 5000 yields 1000 elements). -/
theorem c5_step_cap (F : Nat → Nat → ℚ) (g : Nat → ℚ) (m : Nat)
    (caption : Str) (rate : ℚ) (steps : Nat) (kt : Nat) (ks : Str)
    (sep : SepArg) (seed : Option Nat) :
    (simulateDropoutStepsRun F g m caption rate steps kt ks sep seed).1.length =
      min steps 1000 ∧
    (simulateShuffleStepsRun F g m caption steps kt ks sep seed).1.length =
      min steps 1000 ∧
    (simulateBothOperationsStepsRun F g m caption rate steps kt ks sep seed).1.length =
      min steps 1000 := by
  refine ⟨?_, ?_, ?_⟩ <;> cases seed <;>
    first
      | exact simulateDropoutGo_length F g caption rate kt ks sep _ _ _ 0 _
      | exact simulateShuffleGo_length F g caption kt ks sep _ _ _ 0 _
      | exact simulateBothGo_length F g caption rate kt ks sep _ _ _ 0 _

/-- C10: the combined transform is the plain composition with a shared seed:
`applyBothDropoutAndShuffle` equals `shuffleCaption` applied to the output
of `applyCaptionDropout` (with the ambient RNG cursor threaded between the
two stages), and with a seed present both stages run their fresh generator
from the very same seed `s`. -/
theorem c10_combined_composition (F : Nat → Nat → ℚ) (g : Nat → ℚ) (m : Nat)
    (caption : Str) (rate : ℚ) (kt : Nat) (ks : Str) (sep : SepArg)
    (seed : Option Nat) :
    applyBothDropoutAndShuffleRun F g m caption rate kt ks sep seed =
      shuffleCaptionRun F g
        (applyCaptionDropoutRun F g m caption rate kt ks sep seed).2
        (applyCaptionDropoutRun F g m caption rate kt ks sep seed).1
        kt ks sep seed ∧
    (∀ s : Nat,
      applyBothDropoutAndShuffleRun F g m caption rate kt ks sep (some s) =
        ((shuffleCaptionCore (F s)
          ((applyCaptionDropoutCore (F s) caption rate kt ks sep).1)
          kt ks sep).1, m)) :=
  ⟨rfl, fun _ => rfl⟩

theorem simulateDropoutGo_map (F : Nat → Nat → ℚ) (g : Nat → ℚ) (c : Str)
    (rate : ℚ) (kt : Nat) (ks : Str) (sep : SepArg) (b : Nat) :
    ∀ count i m,
      (simulateDropoutGo F g c rate kt ks sep true b count i m).1 =
      (List.range count).map
        (fun k => (applyCaptionDropoutCore (F (b + i + k)) c rate kt ks sep).1) := by
  intro count
  induction count with
  | zero => intro i m; rfl
  | succ n ih =>
    intro i m
    simp only [simulateDropoutGo, applyCaptionDropoutRun, if_true]
    rw [List.range_succ_eq_map, List.map_cons, List.map_map, ih (i + 1) m]
    refine congrArg₂ List.cons ?_ ?_
    · rw [Nat.add_zero]
    · refine List.map_congr_left ?_
      intro k _
      have hkk : b + (i + 1) + k = b + i + (k + 1) := by omega
      simp only [Function.comp, hkk]

theorem simulateShuffleGo_map (F : Nat → Nat → ℚ) (g : Nat → ℚ) (c : Str)
    (kt : Nat) (ks : Str) (sep : SepArg) (b : Nat) :
    ∀ count i m,
      (simulateShuffleGo F g c kt ks sep true b count i m).1 =
      (List.range count).map
        (fun k => (shuffleCaptionCore (F (b + i + k)) c kt ks sep).1) := by
  intro count
  induction count with
  | zero => intro i m; rfl
  | succ n ih =>
    intro i m
    simp only [simulateShuffleGo, shuffleCaptionRun, if_true]
    rw [List.range_succ_eq_map, List.map_cons, List.map_map, ih (i + 1) m]
    refine congrArg₂ List.cons ?_ ?_
    · rw [Nat.add_zero]
    · refine List.map_congr_left ?_
      intro k _
      have hkk : b + (i + 1) + k = b + i + (k + 1) := by omega
      simp only [Function.comp, hkk]

theorem simulateBothGo_map (F : Nat → Nat → ℚ) (g : Nat → ℚ) (c : Str)
    (rate : ℚ) (kt : Nat) (ks : Str) (sep : SepArg) (b : Nat) :
    ∀ count i m,
      (simulateBothGo F g c rate kt ks sep true b count i m).1 =
      (List.range count).map
        (fun k => (shuffleCaptionCore (F (b + i + k))
          ((applyCaptionDropoutCore (F (b + i + k)) c rate kt ks sep).1)
          kt ks sep).1) := by
  intro count
  induction count with
  | zero => intro i m; rfl
  | succ n ih =>
    intro i m
    simp only [simulateBothGo, applyBothDropoutAndShuffleRun,
      applyCaptionDropoutRun, shuffleCaptionRun, if_true]
    rw [List.range_succ_eq_map, List.map_cons, List.map_map, ih (i + 1) m]
    refine congrArg₂ List.cons ?_ ?_
    · rw [Nat.add_zero]
    · refine List.map_congr_left ?_
      intro k _
      have hkk : b + (i + 1) + k = b + i + (k + 1) := by omega
      simp only [Function.comp, hkk]

/-- C3 counterexample: the sub-seeds are not drawn from the parent seeded
stream.  With the family that is 1 on seed 1 and 0 elsewhere, top-level seed
1, rate 0 and caption "a", the code's simulator output and combined
transform differ from the claimed `floor(parentRng() * 1e9)` derivation. -/
theorem c3_counterexample :
    (simulateDropoutStepsRun seedProbeFamily zeroStream 0 "a".toList 0 1 0 []
        (.single [',']) (some 1)).1 ≠
      simulateDropoutStepsClaimed seedProbeFamily "a".toList 0 1 0 []
        (.single [',']) 1 ∧
    (applyBothDropoutAndShuffleRun seedProbeFamily zeroStream 0 "a".toList 0 0
        [] (.single [',']) (some 1)).1 ≠
      applyBothClaimed seedProbeFamily "a".toList 0 0 [] (.single [',']) 1 := by
  decide

/-- C3 (amended): when a top-level seed `s` is given, no RNG draw is used to
derive downstream seeds.  `applyBothDropoutAndShuffle` hands the seed `s`
itself to both stages, and step `i` of each simulator runs its transform
with sub-seed `s + i`; every step is therefore still fully determined by the
single top-level seed. -/
theorem c3_seed_derivation (F : Nat → Nat → ℚ) (g : Nat → ℚ) (m : Nat)
    (caption : Str) (rate : ℚ) (steps : Nat) (kt : Nat) (ks : Str)
    (sep : SepArg) (s : Nat) :
    applyBothDropoutAndShuffleRun F g m caption rate kt ks sep (some s) =
      ((shuffleCaptionCore (F s)
        ((applyCaptionDropoutCore (F s) caption rate kt ks sep).1)
        kt ks sep).1, m) ∧
    (simulateDropoutStepsRun F g m caption rate steps kt ks sep (some s)).1 =
      (List.range (min steps 1000)).map
        (fun i => (applyCaptionDropoutCore (F (s + i)) caption rate kt ks sep).1) ∧
    (simulateShuffleStepsRun F g m caption steps kt ks sep (some s)).1 =
      (List.range (min steps 1000)).map
        (fun i => (shuffleCaptionCore (F (s + i)) caption kt ks sep).1) ∧
    (simulateBothOperationsStepsRun F g m caption rate steps kt ks sep (some s)).1 =
      (List.range (min steps 1000)).map
        (fun i => (shuffleCaptionCore (F (s + i))
          ((applyCaptionDropoutCore (F (s + i)) caption rate kt ks sep).1)
          kt ks sep).1) := by
  refine ⟨rfl, ?_, ?_, ?_⟩
  · rw [show (simulateDropoutStepsRun F g m caption rate steps kt ks sep (some s)).1 =
      (simulateDropoutGo F g caption rate kt ks sep true s (min steps 1000) 0 m).1
      from rfl]
    rw [simulateDropoutGo_map]
    refine List.map_congr_left ?_
    intro k _
    rw [Nat.add_zero]
  · rw [show (simulateShuffleStepsRun F g m caption steps kt ks sep (some s)).1 =
      (simulateShuffleGo F g caption kt ks sep true s (min steps 1000) 0 m).1
      from rfl]
    rw [simulateShuffleGo_map]
    refine List.map_congr_left ?_
    intro k _
    rw [Nat.add_zero]
  · rw [show (simulateBothOperationsStepsRun F g m caption rate steps kt ks sep (some s)).1 =
      (simulateBothGo F g caption rate kt ks sep true s (min steps 1000) 0 m).1
      from rfl]
    rw [simulateBothGo_map]
    refine List.map_congr_left ?_
    intro k _
    rw [Nat.add_zero]

theorem dropoutFilter_keeps_all (r : Nat → ℚ) (rate : ℚ) (kp : Str → Bool)
    (h : ∀ k, rate < r k) : ∀ ts n, (dropoutFilter r rate kp ts n).1 = ts := by
  intro ts
  induction ts with
  | nil => intro n; rfl
  | cons t ts ih =>
    intro n
    by_cases hk : kp t = true
    · rw [dropoutFilter, if_pos hk]
      show t :: (dropoutFilter r rate kp ts n).1 = t :: ts
      rw [ih]
    · rw [dropoutFilter, if_neg hk, if_pos (h n)]
      show t :: (dropoutFilter r rate kp ts (n + 1)).1 = t :: ts
      rw [ih]

/-- C9: empty and whitespace-only captions are not an error: both
`applyCaptionDropout` and `shuffleCaption` return the empty string at once,
for every rate, keep configuration, separator argument and seed, leaving
the ambient RNG cursor untouched. -/
theorem c9_empty_caption (F : Nat → Nat → ℚ) (g : Nat → ℚ) (m : Nat)
    (caption : Str) (rate : ℚ) (kt : Nat) (ks : Str) (sep : SepArg)
    (seed : Option Nat) (h : jsTrim caption = []) :
    applyCaptionDropoutRun F g m caption rate kt ks sep seed = ([], m) ∧
    shuffleCaptionRun F g m caption kt ks sep seed = ([], m) := by
  have hc : (jsTrim caption).isEmpty = true := by rw [h]; rfl
  constructor <;> cases seed <;>
    simp only [applyCaptionDropoutRun, shuffleCaptionRun,
      applyCaptionDropoutCore, shuffleCaptionCore, hc, if_true, Nat.add_zero]

/-- C9 witness: a whitespace-only caption at a concrete configuration. -/
theorem c9_empty_caption_witness :
    applyCaptionDropoutRun zeroFamily zeroStream 7 "   ".toList 1 2
        "|||".toList (.single [',']) (some 3) = ([], 7) ∧
    shuffleCaptionRun zeroFamily zeroStream 7 "   ".toList 2
        "|||".toList (.single [',']) (some 3) = ([], 7) :=
  c9_empty_caption zeroFamily zeroStream 7 "   ".toList 1 2
    "|||".toList (.single [',']) (some 3) (by decide)

/-- C1 (code bug): the code never implements the positional keep count.
For caption "a, b" (tokens "a", "b"), `keepTokens = 1`, no marker and
dropout rate 1, `applyCaptionDropout` drops every token — the output is ""
rather than keeping the first token "a" — and `shuffleCaption` (with a
draw of 0) moves the first token, returning "b,a". -/
theorem c1_keep_count_violated :
    tokenizeArg "a, b".toList (.single [',']) = ["a".toList, "b".toList] ∧
    (applyCaptionDropoutRun zeroFamily zeroStream 0 "a, b".toList 1 1 []
        (.single [',']) (some 0)).1 = [] ∧
    (shuffleCaptionRun zeroFamily zeroStream 0 "a, b".toList 1 []
        (.single [',']) (some 0)).1 = "b,a".toList := by
  decide

/-- C2 (code bug): the marker-based keep of the code requires the marker to
enclose a segment (occur twice), so for caption "fixed ||| a, b, c" with
`keepTokensSeparator = "|||"` (one occurrence) and rate 1 nothing is
protected: the output is "" and not the claimed "fixed". -/
theorem c2_marker_prefix_violated :
    (applyCaptionDropoutRun zeroFamily zeroStream 0
        "fixed ||| a, b, c".toList 1 1 "|||".toList (.single [','])
        (some 0)).1 = [] ∧
    ([] : Str) ≠ "fixed".toList := by
  decide

/-- C7 counterexample: with rate 0 every token survives, but the code joins
with the bare primary separator — `"a,b,c,d"` — not with separator plus
space as the claim's expected output `"a, b, c, d"` states. -/
theorem c7_counterexample :
    (applyCaptionDropoutRun oneFamily zeroStream 0 "a, b, c, d".toList 0 0 []
        (.single [',']) (some 0)).1 ≠ "a, b, c, d".toList ∧
    (applyCaptionDropoutRun oneFamily zeroStream 0 "a, b, c, d".toList 0 0 []
        (.single [',']) (some 0)).1 = "a,b,c,d".toList := by
  decide

/-- C7 (amended): for caption "a, b, c, d" with rate 0, keepTokens 0 and
separator ",", every token whose draw is strictly positive is kept and the
tokens are re-joined with the primary separator and no added space: the
output is "a,b,c,d" for every seeded stream with strictly positive draws. -/
theorem c7_round_trip (F : Nat → Nat → ℚ) (g : Nat → ℚ) (m s : Nat)
    (h : ∀ n, 0 < F s n) :
    (applyCaptionDropoutRun F g m "a, b, c, d".toList 0 0 [] (.single [','])
      (some s)).1 = "a,b,c,d".toList := by
  show (applyCaptionDropoutCore (F s) "a, b, c, d".toList 0 0 []
    (.single [','])).1 = "a,b,c,d".toList
  have htok : tokenizeArg "a, b, c, d".toList (.single [',']) =
      ["a".toList, "b".toList, "c".toList, "d".toList] := by decide
  rw [applyCaptionDropoutCore, if_neg (by decide)]
  simp only [htok]
  rw [if_neg (by decide), if_neg (by decide)]
  show (List.intercalate [',']
    (dropoutFilter (F s) 0 _
      ["a".toList, "b".toList, "c".toList, "d".toList] 0).1) = _
  rw [dropoutFilter_keeps_all (F s) 0 _ h]
  decide

/-- C7 witness: the amended round trip at the all-ones seeded family. -/
theorem c7_round_trip_witness :
    (∀ n, 0 < oneFamily 5 n) ∧
    (applyCaptionDropoutRun oneFamily zeroStream 0 "a, b, c, d".toList 0 0 []
      (.single [',']) (some 5)).1 = "a,b,c,d".toList :=
  ⟨fun _ => one_pos, c7_round_trip oneFamily zeroStream 0 5 (fun _ => one_pos)⟩

theorem floorTimesNat_bound (q : ℚ) (h0 : 0 ≤ q) (h1 : q < 1) (n : Nat)
    (hn : 0 < n) : (floorTimesNat q n).toNat < n := by
  rw [floorTimesNat_eq]
  have hnq : (0 : ℚ) < (n : ℚ) := by exact_mod_cast hn
  have hq : q * (n : ℚ) < (n : ℚ) := by
    calc q * (n : ℚ) < 1 * (n : ℚ) := mul_lt_mul_of_pos_right h1 hnq
      _ = (n : ℚ) := one_mul _
  have hf : ⌊q * (n : ℚ)⌋ < (n : ℤ) := by
    rw [Int.floor_lt]
    exact_mod_cast hq
  have hf0 : 0 ≤ ⌊q * (n : ℚ)⌋ := Int.floor_nonneg.mpr (mul_nonneg h0 hnq.le)
  omega

theorem getD_set_cons_perm :
    ∀ (l : List Str) (k : Nat) (a : Str), k < l.length →
      (l.getD k [] :: l.set k a).Perm (a :: l)
  | [], k, a, h => absurd h (by simp)
  | x :: t, 0, a, _ => by
    simp only [List.getD_cons_zero, List.set_cons_zero]
    exact List.Perm.swap a x t
  | x :: t, k + 1, a, h => by
    simp only [List.getD_cons_succ, List.set_cons_succ]
    exact (List.Perm.swap x (t.getD k []) (t.set k a)).trans
      (((getD_set_cons_perm t k a (Nat.lt_of_succ_lt_succ h)).cons x).trans
        (List.Perm.swap a x t))

theorem listSwap_perm :
    ∀ (l : List Str) (i j : Nat), i < l.length → j < l.length →
      (listSwap l i j).Perm l
  | [], i, _, hi, _ => absurd hi (by simp)
  | x :: t, 0, 0, _, _ => by
    simp only [listSwap, List.getD_cons_zero, List.set_cons_zero]
    exact List.Perm.refl _
  | x :: t, 0, k + 1, _, hj => by
    simp only [listSwap, List.getD_cons_zero, List.getD_cons_succ,
      List.set_cons_zero, List.set_cons_succ]
    exact getD_set_cons_perm t k x (Nat.lt_of_succ_lt_succ hj)
  | x :: t, m + 1, 0, hi, _ => by
    simp only [listSwap, List.getD_cons_zero, List.getD_cons_succ,
      List.set_cons_zero, List.set_cons_succ]
    exact getD_set_cons_perm t m x (Nat.lt_of_succ_lt_succ hi)
  | x :: t, m + 1, k + 1, hi, hj => by
    simp only [listSwap, List.getD_cons_succ, List.set_cons_succ]
    exact (listSwap_perm t m k (Nat.lt_of_succ_lt_succ hi)
      (Nat.lt_of_succ_lt_succ hj)).cons x

theorem listSwap_length (l : List Str) (i j : Nat) :
    (listSwap l i j).length = l.length := by
  simp [listSwap]

theorem fisherYates_perm (r : Nat → ℚ) (hr : ∀ n, 0 ≤ r n ∧ r n < 1) :
    ∀ i (a : List Str) n, i < a.length → ((fisherYates r a i n).1).Perm a := by
  intro i
  induction i with
  | zero => intro a n _; exact List.Perm.refl a
  | succ m ih =>
    intro a n h
    have hj : (floorTimesNat (r n) (m + 2)).toNat < m + 2 :=
      floorTimesNat_bound (r n) (hr n).1 (hr n).2 (m + 2) (by omega)
    have hjlen : (floorTimesNat (r n) (m + 2)).toNat < a.length := by omega
    have hswap :=
      listSwap_perm a (m + 1) ((floorTimesNat (r n) (m + 2)).toNat) h hjlen
    have hm : m < (listSwap a (m + 1)
        ((floorTimesNat (r n) (m + 2)).toNat)).length := by
      rw [listSwap_length]; omega
    show ((fisherYates r (listSwap a (m + 1)
      ((floorTimesNat (r n) (m + 2)).toNat)) m (n + 1)).1).Perm a
    exact (ih _ (n + 1) hm).trans hswap

theorem fisherYates_perm_start (r : Nat → ℚ) (hr : ∀ n, 0 ≤ r n ∧ r n < 1)
    (a : List Str) (n : Nat) :
    ((fisherYates r a (a.length - 1) n).1).Perm a := by
  cases a with
  | nil => exact List.Perm.refl _
  | cons x t =>
    have hlen : (x :: t).length - 1 = t.length := by simp
    rw [hlen]
    exact fisherYates_perm r hr t.length (x :: t) n (by simp)

theorem partitionIdx_perm (keep : List Nat) :
    ∀ (l : List Str) (i : Nat),
      l.Perm (filterIdxKeep keep l i ++ filterNotIdx keep l i) := by
  intro l
  induction l with
  | nil => intro i; exact List.Perm.refl _
  | cons t ts ih =>
    intro i
    by_cases hk : keep.contains i = true
    · rw [filterIdxKeep, filterNotIdx, if_pos hk, if_pos hk]
      exact (ih (i + 1)).cons t
    · rw [filterIdxKeep, filterNotIdx, if_neg hk, if_neg hk]
      exact ((ih (i + 1)).cons t).trans List.perm_middle.symm

theorem reconstruct_perm (keep : List Nat) :
    ∀ (l : List Str) (i : Nat) (sh : List Str),
      sh.length = (filterNotIdx keep l i).length →
      (reconstructTokens keep l i sh).Perm (filterIdxKeep keep l i ++ sh) := by
  intro l
  induction l with
  | nil =>
    intro i sh h
    rw [filterNotIdx, List.length_nil, List.length_eq_zero] at h
    rw [h]
    exact List.Perm.refl _
  | cons t ts ih =>
    intro i sh h
    by_cases hk : keep.contains i = true
    · rw [reconstructTokens, filterIdxKeep, if_pos hk, if_pos hk]
      rw [filterNotIdx, if_pos hk] at h
      exact (ih (i + 1) sh h).cons t
    · rw [filterNotIdx, if_neg hk] at h
      cases sh with
      | nil => simp at h
      | cons x sh =>
        rw [reconstructTokens, filterIdxKeep, if_neg hk, if_neg hk]
        simp only [List.headD_cons, List.tail_cons]
        have h' : sh.length = (filterNotIdx keep ts (i + 1)).length := by
          simp only [List.length_cons] at h
          omega
        exact ((ih (i + 1) sh h').cons x).trans List.perm_middle.symm

/-- C6 counterexample: re-tokenizing the shuffle output is not
multiset-preserving for every separator set.  Caption "aba aa aba" with
separator "aa" tokenizes to ["aba", "aba"]; the joined shuffle output
"abaaaaba" re-splits on "aa" into ["ab", "ba"] — a different multiset —
although the draw stream (constant 0) is a genuine RNG stream. -/
theorem c6_counterexample :
    Multiset.ofList (tokenizeArg (shuffleCaptionRun zeroFamily zeroStream 0
        "aba aa aba".toList 0 [] (.single "aa".toList) (some 0)).1
        (.single "aa".toList)) ≠
      Multiset.ofList (tokenizeArg "aba aa aba".toList
        (.single "aa".toList)) ∧
    (∀ n, 0 ≤ zeroFamily 0 n ∧ zeroFamily 0 n < 1) :=
  ⟨by decide, fun _ => ⟨le_refl 0, zero_lt_one⟩⟩

/-- C6 (amended): shuffle is a permutation at the token-list level.  For
every caption, keep configuration, separator argument and RNG stream (draws
in `[0,1)`), the list of tokens whose join is the output of `shuffleCaption`
— the non-protected tokens permuted by the Fisher–Yates draws, the pinned
ones left in place — has exactly the multiset of the tokenized input, and
on the non-degenerate path the output string is the join of that list.
(Re-tokenizing the joined string can split tokens differently, see the
counterexample.) -/
theorem c6_shuffle_permutation (r : Nat → ℚ) (caption : Str) (kt : Nat)
    (ks : Str) (sep : SepArg) (hr : ∀ n, 0 ≤ r n ∧ r n < 1) :
    Multiset.ofList (shuffleTokens r caption kt ks sep).1 =
      Multiset.ofList (tokenizeArg caption sep) ∧
    ((jsTrim caption).isEmpty = false →
      (tokenizeArg caption sep).isEmpty = false →
      (shuffleCaptionCore r caption kt ks sep).1 =
        List.intercalate (primarySeparator sep)
          (shuffleTokens r caption kt ks sep).1) := by
  constructor
  · have key : ∀ (tokens : List Str) (kpos : List Nat),
        (reconstructTokens kpos tokens 0
          (fisherYates r (filterNotIdx kpos tokens 0)
            ((filterNotIdx kpos tokens 0).length - 1) 0).1).Perm tokens := by
      intro tokens kpos
      have h1 := fisherYates_perm_start r hr (filterNotIdx kpos tokens 0) 0
      have h2 := reconstruct_perm kpos tokens 0 _ h1.length_eq
      exact h2.trans ((List.Perm.append_left _ h1).trans
        (partitionIdx_perm kpos tokens 0).symm)
    exact Multiset.coe_eq_coe.mpr (key _ _)
  · intro h1 h2
    simp [shuffleCaptionCore, h1, h2]

/-- C6 witness: the amended permutation statement at the constant-zero
stream on caption "a, b, c". -/
theorem c6_shuffle_permutation_witness :
    (∀ n, 0 ≤ zeroStream n ∧ zeroStream n < 1) ∧
    Multiset.ofList (shuffleTokens zeroStream "a, b, c".toList 0 []
        (.single [','])).1 =
      Multiset.ofList (tokenizeArg "a, b, c".toList (.single [','])) :=
  ⟨fun _ => ⟨le_refl 0, zero_lt_one⟩,
   (c6_shuffle_permutation zeroStream "a, b, c".toList 0 [] (.single [','])
     (fun _ => ⟨le_refl 0, zero_lt_one⟩)).1⟩

/-! ### String-scanning lemmas for the Wolf rewriter -/

theorem isPrefixOf_eq_true :
    ∀ (p s : Str), p.isPrefixOf s = true ↔ ∃ t, s = p ++ t
  | [], s => by
    simp [List.isPrefixOf]
  | c :: p, [] => by
    simp [List.isPrefixOf]
  | c :: p, d :: s => by
    rw [List.isPrefixOf, Bool.and_eq_true, beq_iff_eq]
    constructor
    · rintro ⟨rfl, h2⟩
      obtain ⟨t, rfl⟩ := (isPrefixOf_eq_true p s).mp h2
      exact ⟨t, rfl⟩
    · rintro ⟨t, ht⟩
      injection ht with h1 h2
      exact ⟨h1.symm, (isPrefixOf_eq_true p s).mpr ⟨t, h2⟩⟩

theorem hasSub_iff :
    ∀ (s p : Str), hasSub s p = true ↔ ∃ l r, s = l ++ (p ++ r) := by
  intro s
  induction s with
  | nil =>
    intro p
    rw [hasSub]
    constructor
    · intro h
      refine ⟨[], [], ?_⟩
      rw [List.isEmpty_iff.mp h]
      rfl
    · rintro ⟨l, r, h⟩
      rw [List.isEmpty_iff]
      rcases List.append_eq_nil.mp h.symm with ⟨-, h2⟩
      exact (List.append_eq_nil.mp h2).1
  | cons c cs ih =>
    intro p
    rw [hasSub, Bool.or_eq_true]
    constructor
    · rintro (h | h)
      · obtain ⟨t, ht⟩ := (isPrefixOf_eq_true p (c :: cs)).mp h
        exact ⟨[], t, by simp [ht]⟩
      · obtain ⟨l, r, hr⟩ := (ih p).mp h
        exact ⟨c :: l, r, by simp [hr]⟩
    · rintro ⟨l, r, h⟩
      cases l with
      | nil =>
        left
        exact (isPrefixOf_eq_true p (c :: cs)).mpr ⟨r, by simpa using h⟩
      | cons x l =>
        right
        injection h with h1 h2
        exact (ih p).mpr ⟨l, r, h2⟩

theorem hasSub_count_le (s p : Str) (c : Char) (h : hasSub s p = true) :
    p.count c ≤ s.count c := by
  obtain ⟨l, r, rfl⟩ := (hasSub_iff s p).mp h
  simp [List.count_append]
  omega

theorem hasSub_mem (s p : Str) (h : hasSub s p = true) :
    ∀ c ∈ p, c ∈ s := by
  obtain ⟨l, r, rfl⟩ := (hasSub_iff s p).mp h
  intro c hc
  simp [hc]

theorem hasSub_false_of_not_mem (s p : Str) (c : Char) (hc : c ∈ p)
    (hs : c ∉ s) : hasSub s p = false := by
  cases hb : hasSub s p with
  | false => rfl
  | true => exact absurd (hasSub_mem s p hb c hc) hs

theorem breakOn_eq_none (p : Str) :
    ∀ s, hasSub s p = false → breakOn p s = none := by
  intro s
  induction s with
  | nil => intro _; rfl
  | cons c cs ih =>
    intro h
    rw [hasSub, Bool.or_eq_false_iff] at h
    rw [breakOn, if_neg (by simp [h.1]), ih h.2]

theorem breakOn_append_self (p rest : Str) (hp : p ≠ []) :
    breakOn p (p ++ rest) = some ([], rest) := by
  obtain ⟨c, p', rfl⟩ := List.exists_cons_of_ne_nil hp
  rw [List.cons_append, breakOn,
    if_pos ((isPrefixOf_eq_true _ _).mpr ⟨rest, by simp⟩)]
  rw [← List.cons_append, List.drop_left]

theorem replaceLitGo_no (pat rep : Str) :
    ∀ fuel s, hasSub s pat = false → replaceLitGo pat rep fuel s = s := by
  intro fuel
  cases fuel with
  | zero => intro s _; rfl
  | succ n =>
    intro s h
    rw [replaceLitGo, breakOn_eq_none pat s h]

theorem replaceLitGo_head (pat rep rest : Str) (fuel : Nat) (hp : pat ≠ [])
    (h : hasSub rest pat = false) :
    replaceLitGo pat rep (fuel + 1) (pat ++ rest) = rep ++ rest := by
  rw [replaceLitGo, breakOn_append_self pat rest hp]
  show [] ++ rep ++ replaceLitGo pat rep fuel rest = rep ++ rest
  rw [replaceLitGo_no pat rep fuel rest h]
  rfl

theorem maskMatchesGo_no (pat base : Str) (rs : Nat → Str) :
    ∀ fuel s n, hasSub s pat = false →
      maskMatchesGo pat base rs fuel s n = (s, n, []) := by
  intro fuel
  cases fuel with
  | zero => intro s n _; rfl
  | succ f =>
    intro s n h
    rw [maskMatchesGo, breakOn_eq_none pat s h]

theorem maskMatchesGo_once (pat base post : Str) (rs : Nat → Str)
    (fuel n : Nat) (hb : breakOn pat (pat ++ post) = some ([], post))
    (h : hasSub post pat = false) :
    maskMatchesGo pat base rs (fuel + 1) (pat ++ post) n =
      ((base ++ rs n) ++ post, n + 1, [(base ++ rs n, pat)]) := by
  rw [maskMatchesGo, hb]
  show ([] ++ (base ++ rs n) ++ (maskMatchesGo pat base rs fuel post (n + 1)).1,
      (maskMatchesGo pat base rs fuel post (n + 1)).2.1,
      (base ++ rs n, pat) :: (maskMatchesGo pat base rs fuel post (n + 1)).2.2) =
    ((base ++ rs n) ++ post, n + 1, [(base ++ rs n, pat)])
  rw [maskMatchesGo_no pat base rs fuel post (n + 1) h]
  simp

theorem maskAbbreviations_cons_no (rs : Nat → Str) (pat : Str) (ps : List Str)
    (idx : Nat) (s : Str) (n : Nat) (h : hasSub s pat = false) :
    maskAbbreviations rs (pat :: ps) idx s n =
      maskAbbreviations rs ps (idx + 1) s n := by
  rw [maskAbbreviations,
    maskMatchesGo_no pat _ rs (s.length + 1) s n h]
  simp

theorem maskAbbreviations_all_no (rs : Nat → Str) :
    ∀ (ps : List Str) (idx : Nat) (s : Str) (n : Nat),
      (∀ pat ∈ ps, hasSub s pat = false) →
      maskAbbreviations rs ps idx s n = (s, n, []) := by
  intro ps
  induction ps with
  | nil => intro idx s n _; rfl
  | cons pat ps ih =>
    intro idx s n h
    rw [maskAbbreviations_cons_no rs pat ps idx s n (h pat (List.mem_cons_self pat ps))]
    exact ih (idx + 1) s n (fun q hq => h q (List.mem_cons_of_mem pat hq))

theorem hasPairPred_cons_of (P Q : Char → Bool) (c : Char) (l : Str)
    (h : hasPairPred P Q l = true) : hasPairPred P Q (c :: l) = true := by
  cases l with
  | nil => simp [hasPairPred] at h
  | cons d ds =>
    rw [hasPairPred, h]
    simp

theorem hasPairPred_cons_false (P Q : Char → Bool) (c : Char) (l : Str)
    (h : hasPairPred P Q (c :: l) = false) : hasPairPred P Q l = false := by
  cases l with
  | nil => rfl
  | cons d ds =>
    rw [hasPairPred, Bool.or_eq_false_iff] at h
    exact h.2

theorem pair_at_append (P Q : Char → Bool) (a b : Char) (ha : P a = true)
    (hb : Q b = true) :
    ∀ x y : Str, hasPairPred P Q (x ++ (a :: b :: y)) = true := by
  intro x
  induction x with
  | nil =>
    intro y
    rw [List.nil_append, hasPairPred, ha, hb]
    simp
  | cons c cs ih =>
    intro y
    rw [List.cons_append]
    exact hasPairPred_cons_of P Q c _ (ih y)

theorem hasPairPred_append_left (P Q : Char → Bool) :
    ∀ x y : Str, (∀ c ∈ x, P c = false) →
      hasPairPred P Q (x ++ y) = hasPairPred P Q y := by
  intro x
  induction x with
  | nil => intro y _; rfl
  | cons c cs ih =>
    intro y hx
    have hc : P c = false := hx c (List.mem_cons_self c cs)
    have hcs : ∀ d ∈ cs, P d = false := fun d hd => hx d (List.mem_cons_of_mem c hd)
    rw [List.cons_append]
    cases cs with
    | nil =>
      cases y with
      | nil => rfl
      | cons d ds =>
        rw [List.nil_append, hasPairPred, hc]
        simp
    | cons e es =>
      rw [List.cons_append, hasPairPred, hc, ← List.cons_append,
        ih y hcs]
      simp

theorem hasSub_two_pair (s : Str) (c₁ c₂ : Char) (h : hasSub s [c₁, c₂] = true) :
    hasPairPred (fun c => c == c₁) (fun c => c == c₂) s = true := by
  obtain ⟨l, r, rfl⟩ := (hasSub_iff _ _).mp h
  exact pair_at_append _ _ c₁ c₂ (by simp) (by simp) l r

theorem hasSub_false_of_pair (s : Str) (c₁ c₂ : Char)
    (h : hasPairPred (fun c => c == c₁) (fun c => c == c₂) s = false) :
    hasSub s [c₁, c₂] = false := by
  cases hb : hasSub s [c₁, c₂] with
  | false => rfl
  | true => simp [hasSub_two_pair s c₁ c₂ hb] at h

theorem splitFuel_no (sep : Str) :
    ∀ fuel s, hasSub s sep = false → splitFuel sep fuel s = [s] := by
  intro fuel
  cases fuel with
  | zero => intro s _; rfl
  | succ f =>
    intro s h
    rw [splitFuel, breakOn_eq_none sep s h]

theorem jsSplit_no (s sep : Str) (hsep : sep ≠ []) (h : hasSub s sep = false) :
    jsSplit s sep = [s] := by
  rw [jsSplit, if_neg hsep]
  exact splitFuel_no sep s.length s h

theorem dropWhile_append_singleton_ne_nil (p : Char → Bool) (c : Char)
    (hc : p c = false) :
    ∀ xs : Str, List.dropWhile p (xs ++ [c]) ≠ [] := by
  intro xs
  induction xs with
  | nil =>
    rw [List.nil_append, List.dropWhile_cons_of_neg (by simp [hc])]
    simp
  | cons x xs ih =>
    rw [List.cons_append]
    by_cases hx : p x = true
    · rw [List.dropWhile_cons_of_pos hx]
      exact ih
    · rw [List.dropWhile_cons_of_neg hx]
      simp

theorem jsTrim_cons_nonempty (c : Char) (s : Str) (hc : jsWhitespace c = false) :
    (jsTrim (c :: s)).isEmpty = false := by
  rw [jsTrim, List.dropWhile_cons_of_neg (by simp [hc])]
  have h1 : (c :: s).reverse = s.reverse ++ [c] := by simp
  rw [h1]
  cases hd : List.dropWhile jsWhitespace (s.reverse ++ [c]) with
  | nil => exact absurd hd (dropWhile_append_singleton_ne_nil jsWhitespace c hc s.reverse)
  | cons d ds => simp [hd]

theorem isPrefixOf_append_ext (p u v : Str) (h : p.isPrefixOf u = true) :
    p.isPrefixOf (u ++ v) = true := by
  obtain ⟨t, rfl⟩ := (isPrefixOf_eq_true p u).mp h
  exact (isPrefixOf_eq_true _ _).mpr ⟨t ++ v, by simp⟩

theorem endsWithB_append (x y p : Str) (h : endsWithB y p = true) :
    endsWithB (x ++ y) p = true := by
  rw [endsWithB, List.reverse_append]
  exact isPrefixOf_append_ext _ _ _ h

theorem dropLast_append_ne_nil (x : Str) :
    ∀ y : Str, y ≠ [] → (x ++ y).dropLast = x ++ y.dropLast := by
  induction x with
  | nil => intro y _; rfl
  | cons c xs ih =>
    intro y hy
    rw [List.cons_append]
    have hne : xs ++ y ≠ [] := by simp [hy]
    obtain ⟨d, ds, hds⟩ := List.exists_cons_of_ne_nil hne
    rw [hds, List.dropLast_cons₂, ← hds, ih y hy, List.cons_append]

theorem takeWhile_drop_eq (p : Char → Bool) :
    ∀ l : Str, l.drop (l.takeWhile p).length = l.dropWhile p := by
  intro l
  induction l with
  | nil => rfl
  | cons c cs ih =>
    by_cases h : p c = true
    · rw [List.takeWhile_cons_of_pos h, List.dropWhile_cons_of_pos h,
        List.length_cons, List.drop_succ_cons]
      exact ih
    · rw [List.takeWhile_cons_of_neg h, List.dropWhile_cons_of_neg h]
      rfl

theorem takeWhile_ne_nil_head (p : Char → Bool) (l : Str)
    (h : (l.takeWhile p).isEmpty = false) :
    ∃ d l', l = d :: l' ∧ p d = true := by
  cases l with
  | nil => simp [List.takeWhile] at h
  | cons c cs =>
    by_cases hp : p c = true
    · exact ⟨c, cs, rfl, hp⟩
    · rw [List.takeWhile_cons_of_neg hp] at h
      simp at h

theorem decMatchAt_some_pair (s : Str) (h : decMatchAt s ≠ none) :
    hasPairPred (fun c => c == '.') (fun c => c.isDigit) s = true := by
  by_cases h1 : (s.takeWhile Char.isDigit).isEmpty = true
  · rw [decMatchAt] at h
    simp only [h1, if_true] at h
    exact absurd rfl h
  · have h1' : (s.takeWhile Char.isDigit).isEmpty = false :=
      Bool.eq_false_iff.mpr h1
    have hsplit := List.takeWhile_append_dropWhile (p := Char.isDigit) (l := s)
    rw [decMatchAt] at h
    simp only [h1', Bool.false_eq_true, if_false, takeWhile_drop_eq] at h
    split at h
    · rename_i rest2 heq
      by_cases h2 : (rest2.takeWhile Char.isDigit).isEmpty = true
      · simp only [h2, if_true] at h
        exact absurd rfl h
      · obtain ⟨d, rest3, hrest, hdig⟩ :=
          takeWhile_ne_nil_head Char.isDigit rest2 (Bool.eq_false_iff.mpr h2)
        rw [← hsplit, heq, hrest]
        exact pair_at_append _ _ '.' d (by simp) (by simp [hdig])
          (s.takeWhile Char.isDigit) rest3
    · exact absurd rfl h

theorem maskDecimalsGo_no_matches (rs : Nat → Str) :
    ∀ fuel (s : Str) n,
      hasPairPred (fun c => c == '.') (fun c => c.isDigit) s = false →
      maskDecimalsGo rs fuel s n = (s, n, []) := by
  intro fuel
  induction fuel with
  | zero => intro s n _; rfl
  | succ f ih =>
    intro s n h
    cases s with
    | nil => rfl
    | cons c cs =>
      have hm : decMatchAt (c :: cs) = none := by
        cases hdm : decMatchAt (c :: cs) with
        | none => rfl
        | some v =>
          have := decMatchAt_some_pair (c :: cs) (by rw [hdm]; simp)
          simp [this] at h
      rw [maskDecimalsGo, hm]
      have hcs : hasPairPred (fun c => c == '.') (fun c => c.isDigit) cs = false :=
        hasPairPred_cons_false _ _ c cs h
      rw [ih cs n hcs]

theorem no_occurrence_two_dots (a s₀ p : Str)
    (ha : ('.' : Char) ∉ a) (hs : ('.' : Char) ∉ s₀)
    (hp : 2 ≤ p.count '.') :
    hasSub ((a ++ s₀) ++ " Smith left.".toList) p = false := by
  cases hb : hasSub ((a ++ s₀) ++ " Smith left.".toList) p with
  | false => rfl
  | true =>
    exfalso
    have hc := hasSub_count_le _ p '.' hb
    rw [List.count_append, List.count_append,
      List.count_eq_zero.mpr ha, List.count_eq_zero.mpr hs] at hc
    have ht : (" Smith left.".toList).count '.' = 1 := by decide
    rw [ht] at hc
    omega

theorem no_occurrence_dot_final (a s₀ q : Str)
    (ha : ('.' : Char) ∉ a) (hs : ('.' : Char) ∉ s₀) (hq : ('.' : Char) ∉ q)
    (hqlen : q.length ≤ 11)
    (hqsuf : (" Smith left".toList.reverse).take q.length ≠ q.reverse) :
    hasSub ((a ++ s₀) ++ " Smith left.".toList) (q ++ ['.']) = false := by
  cases hb : hasSub ((a ++ s₀) ++ " Smith left.".toList) (q ++ ['.']) with
  | false => rfl
  | true =>
    exfalso
    obtain ⟨l, r, heq⟩ := (hasSub_iff _ _).mp hb
    have hcl : ((a ++ s₀) ++ " Smith left.".toList).count '.' = 1 := by
      rw [List.count_append, List.count_append,
        List.count_eq_zero.mpr ha, List.count_eq_zero.mpr hs]
      decide
    have hcr := congrArg (List.count '.') heq
    rw [hcl] at hcr
    simp only [List.count_append, List.count_eq_zero.mpr hq] at hcr
    have h1 : List.count '.' (['.'] : Str) = 1 := by decide
    rw [h1] at hcr
    have hrnot : ('.' : Char) ∉ r := List.count_eq_zero.mp (by omega)
    have htail : " Smith left.".toList = " Smith left".toList ++ ['.'] := by decide
    rw [htail] at heq
    have hrev := congrArg List.reverse heq
    simp only [List.reverse_append, List.append_assoc] at hrev
    simp only [show (['.'] : Str).reverse = ['.'] from rfl,
      List.singleton_append] at hrev
    cases hrr : r.reverse with
    | nil =>
      rw [hrr, List.nil_append] at hrev
      injection hrev with _ htails
      have htake := congrArg (List.take q.length) htails
      rw [List.take_append_of_le_length
          (by rw [List.length_reverse]; exact hqlen),
        List.take_left' (by rw [List.length_reverse])] at htake
      exact hqsuf htake
    | cons x rr =>
      rw [hrr, List.cons_append] at hrev
      injection hrev with hx _
      apply hrnot
      rw [← List.mem_reverse, hrr, ← hx]
      exact List.mem_cons_self _ _

theorem maskAbbrev_step (rs : Nat → Str) (hdot : ('.' : Char) ∉ rs 0) :
    maskAbbreviations rs abbreviationPatterns 0 "Dr. Smith left.".toList 0 =
      (("__ABBR3__".toList ++ rs 0) ++ " Smith left.".toList, 1,
       [("__ABBR3__".toList ++ rs 0, "Dr.".toList)]) := by
  have hall : ∀ pat ∈ (["Prof.".toList, "Rev.".toList, "Hon.".toList, "etc.".toList, "vs.".toList, "e.g.".toList, "i.e.".toList, "et al.".toList, "a.m.".toList, "p.m.".toList, "U.S.".toList, "U.K.".toList, "U.S.A.".toList, "N.Y.".toList, "Ph.D.".toList, "B.A.".toList, "M.A.".toList, "M.S.".toList, "B.S.".toList, "k.k.".toList, "Inc.".toList, "Ltd.".toList, "Jr.".toList, "Sr.".toList, "St.".toList] : List Str),
      hasSub (("__ABBR3__".toList ++ rs 0) ++ " Smith left.".toList) pat = false := by
    intro pat hp
    fin_cases hp
    · exact no_occurrence_dot_final "__ABBR3__".toList (rs 0) "Prof".toList
        (by decide) hdot (by decide) (by decide) (by decide)
    · exact no_occurrence_dot_final "__ABBR3__".toList (rs 0) "Rev".toList
        (by decide) hdot (by decide) (by decide) (by decide)
    · exact no_occurrence_dot_final "__ABBR3__".toList (rs 0) "Hon".toList
        (by decide) hdot (by decide) (by decide) (by decide)
    · exact no_occurrence_dot_final "__ABBR3__".toList (rs 0) "etc".toList
        (by decide) hdot (by decide) (by decide) (by decide)
    · exact no_occurrence_dot_final "__ABBR3__".toList (rs 0) "vs".toList
        (by decide) hdot (by decide) (by decide) (by decide)
    · exact no_occurrence_two_dots "__ABBR3__".toList (rs 0) _ (by decide) hdot
        (by decide)
    · exact no_occurrence_two_dots "__ABBR3__".toList (rs 0) _ (by decide) hdot
        (by decide)
    · exact no_occurrence_dot_final "__ABBR3__".toList (rs 0) "et al".toList
        (by decide) hdot (by decide) (by decide) (by decide)
    · exact no_occurrence_two_dots "__ABBR3__".toList (rs 0) _ (by decide) hdot
        (by decide)
    · exact no_occurrence_two_dots "__ABBR3__".toList (rs 0) _ (by decide) hdot
        (by decide)
    · exact no_occurrence_two_dots "__ABBR3__".toList (rs 0) _ (by decide) hdot
        (by decide)
    · exact no_occurrence_two_dots "__ABBR3__".toList (rs 0) _ (by decide) hdot
        (by decide)
    · exact no_occurrence_two_dots "__ABBR3__".toList (rs 0) _ (by decide) hdot
        (by decide)
    · exact no_occurrence_two_dots "__ABBR3__".toList (rs 0) _ (by decide) hdot
        (by decide)
    · exact no_occurrence_two_dots "__ABBR3__".toList (rs 0) _ (by decide) hdot
        (by decide)
    · exact no_occurrence_two_dots "__ABBR3__".toList (rs 0) _ (by decide) hdot
        (by decide)
    · exact no_occurrence_two_dots "__ABBR3__".toList (rs 0) _ (by decide) hdot
        (by decide)
    · exact no_occurrence_two_dots "__ABBR3__".toList (rs 0) _ (by decide) hdot
        (by decide)
    · exact no_occurrence_two_dots "__ABBR3__".toList (rs 0) _ (by decide) hdot
        (by decide)
    · exact no_occurrence_two_dots "__ABBR3__".toList (rs 0) _ (by decide) hdot
        (by decide)
    · exact no_occurrence_dot_final "__ABBR3__".toList (rs 0) "Inc".toList
        (by decide) hdot (by decide) (by decide) (by decide)
    · exact no_occurrence_dot_final "__ABBR3__".toList (rs 0) "Ltd".toList
        (by decide) hdot (by decide) (by decide) (by decide)
    · exact no_occurrence_dot_final "__ABBR3__".toList (rs 0) "Jr".toList
        (by decide) hdot (by decide) (by decide) (by decide)
    · exact no_occurrence_dot_final "__ABBR3__".toList (rs 0) "Sr".toList
        (by decide) hdot (by decide) (by decide) (by decide)
    · exact no_occurrence_dot_final "__ABBR3__".toList (rs 0) "St".toList
        (by decide) hdot (by decide) (by decide) (by decide)
  rw [abbreviationPatterns]
  simp only [List.map_cons, List.map_nil]
  rw [maskAbbreviations_cons_no _ _ _ _ _ _ (by decide)]
  rw [maskAbbreviations_cons_no _ _ _ _ _ _ (by decide)]
  rw [maskAbbreviations_cons_no _ _ _ _ _ _ (by decide)]
  rw [maskAbbreviations]
  rw [show ("__ABBR".toList ++ natChars 3 ++ "__".toList : Str) = "__ABBR3__".toList from by decide]
  rw [show ("Dr. Smith left.".toList : Str) = "Dr.".toList ++ " Smith left.".toList from by decide]
  rw [maskMatchesGo_once "Dr.".toList "__ABBR3__".toList " Smith left.".toList rs _ 0
    (by decide) (by decide)]
  rw [maskAbbreviations_all_no rs _ _ _ _ hall]
  rfl

theorem rebuildSentences_single (b : Bool) (s : Str)
    (h1 : (jsTrim s).isEmpty = false) (h2 : endsWithB s ['.'] = true) :
    rebuildSentences b [s] = s.dropLast ++ ".,".toList := by
  rw [rebuildSentences, if_neg (by simp [h1]), if_pos h2]

/-- C8: the Wolf rewrite preserves abbreviations.  For any placeholder-suffix
stream drawing base-36 suffixes (as `Math.random().toString(36)` does),
`processWolfCaption "Dr. Smith left."` masks the abbreviation "Dr.", rewrites
only the sentence-terminating period to the synthetic separator ".,", and
restores the abbreviation: the output is "Dr. Smith left.,". -/
theorem c8_wolf_abbreviation_preserved (rs : Nat → Str)
    (h36 : ∀ c ∈ rs 0, base36Char c = true) :
    processWolfCaption rs "Dr. Smith left.".toList =
      "Dr. Smith left.,".toList := by
  have hdot : ('.' : Char) ∉ rs 0 := fun hm => absurd (h36 '.' hm) (by decide)
  have hmask := maskAbbrev_step rs hdot
  have hchars : ∀ c ∈ "__ABBR3__".toList, (c == '.') = false := by decide
  have h0dot : ∀ c ∈ rs 0, (c == '.') = false := by
    intro c hc
    cases hcc : c == '.' with
    | false => rfl
    | true =>
      rw [show c = '.' from by exact beq_iff_eq.mp hcc] at hc
      exact absurd hc hdot
  have hpairD : hasPairPred (fun c => c == '.') (fun c => c.isDigit)
      (("__ABBR3__".toList ++ rs 0) ++ " Smith left.".toList) = false := by
    rw [List.append_assoc,
      hasPairPred_append_left _ _ _ _ hchars,
      hasPairPred_append_left _ _ _ _ h0dot]
    decide
  have hpairS : hasPairPred (fun c => c == '.') (fun c => c == ' ')
      (("__ABBR3__".toList ++ rs 0) ++ " Smith left.".toList) = false := by
    rw [List.append_assoc,
      hasPairPred_append_left _ _ _ _ hchars,
      hasPairPred_append_left _ _ _ _ h0dot]
    decide
  have hdec := maskDecimalsGo_no_matches rs
    ((("__ABBR3__".toList ++ rs 0) ++ " Smith left.".toList).length + 1)
    (("__ABBR3__".toList ++ rs 0) ++ " Smith left.".toList) 1 hpairD
  have hsent : jsSplit (("__ABBR3__".toList ++ rs 0) ++ " Smith left.".toList)
      ". ".toList = [("__ABBR3__".toList ++ rs 0) ++ " Smith left.".toList] :=
    jsSplit_no _ _ (by decide) (hasSub_false_of_pair _ '.' ' ' hpairS)
  have htrimne : (jsTrim (("__ABBR3__".toList ++ rs 0) ++
      " Smith left.".toList)).isEmpty = false :=
    jsTrim_cons_nonempty '_' _ (by decide)
  have hends : endsWithB (("__ABBR3__".toList ++ rs 0) ++
      " Smith left.".toList) ['.'] = true :=
    endsWithB_append _ _ _ (by decide)
  have hreb : rebuildSentences true
      [("__ABBR3__".toList ++ rs 0) ++ " Smith left.".toList] =
      ("__ABBR3__".toList ++ rs 0) ++ " Smith left.,".toList := by
    rw [rebuildSentences_single true _ htrimne hends,
      dropLast_append_ne_nil _ _ (by decide),
      show (" Smith left.".toList : Str).dropLast = " Smith left".toList from
        by decide,
      List.append_assoc,
      show (" Smith left".toList ++ ".,".toList : Str) =
        " Smith left.,".toList from by decide]
  have hrest : replaceLitGo ("__ABBR3__".toList ++ rs 0) "Dr.".toList
      ((("__ABBR3__".toList ++ rs 0) ++ " Smith left.,".toList).length + 1)
      (("__ABBR3__".toList ++ rs 0) ++ " Smith left.,".toList) =
      "Dr.".toList ++ " Smith left.,".toList := by
    apply replaceLitGo_head
    · simp
    · exact hasSub_false_of_not_mem _ _ '_'
        (List.mem_append.mpr (Or.inl (by decide))) (by decide)
  rw [processWolfCaption, if_neg (by decide)]
  simp only [show hasSub "Dr. Smith left.".toList "|||".toList = false from
      by decide,
    Bool.false_eq_true, if_false, hmask, hdec, hsent,
    show endsWithB (jsTrim "Dr. Smith left.".toList) ['.'] = true from
      by decide,
    hreb, List.append_nil, List.foldl_cons, List.foldl_nil, hrest,
    List.nil_append]
  decide

/-- C8 witness: the Wolf rewrite at a concrete base-36 suffix stream. -/
theorem c8_wolf_witness :
    (∀ c ∈ sampleSuffixes 0, base36Char c = true) ∧
    processWolfCaption sampleSuffixes "Dr. Smith left.".toList =
      "Dr. Smith left.,".toList :=
  ⟨by decide, c8_wolf_abbreviation_preserved sampleSuffixes (by decide)⟩

end CaptionViz
